import Mathlib

/-!
Shallow embedding of the System-Monitor-Tool reference implementation
(src/system_monitor.cpp), a read-only /proc snapshot monitor.

The embedding follows the C++ source function by function:
the parsing helpers (getMemValue, getSystemInfo, getProcessInfo,
isNumeric), the comparator compareByMem together with the std::sort
call of display, and the full fixed-width rendering of display,
modelled as the list of output lines.  External text resources
(/proc/meminfo, /proc/loadavg, /proc/[pid]/status, /proc/[pid]/cmdline
and the /proc directory listing) are inputs of type Option, a missing
resource being modelled by none, mirroring the is_open checks of the
source.  Strings of the source are ASCII, so the byte counts of
std::string map one-to-one to the char counts used here.
-/

namespace SysMon

/-- Characters treated as separators by C++ formatted stream extraction
(the isspace set; lines never contain a newline once getline split them). -/
def isStreamWs (c : Char) : Bool :=
  c = ' ' || c = '\t' || c = '\n' || c = '\r' || c = Char.ofNat 11 || c = Char.ofNat 12

/-- Character count of a string; contents are ASCII so this coincides with
the byte count that std::string::length returns. -/
def strLen (s : String) : Nat := s.data.length

/-- Accumulator-based whitespace tokenizer: splits a character list into
maximal runs of non-whitespace characters, as repeated stream extraction
into std::string does. -/
def wordsAux : List Char → List Char → List (List Char)
  | cur, [] => if cur.isEmpty then [] else [cur.reverse]
  | cur, c :: cs =>
    if isStreamWs c then
      (if cur.isEmpty then wordsAux [] cs else cur.reverse :: wordsAux [] cs)
    else wordsAux (c :: cur) cs

/-- The whitespace-delimited tokens of a line. -/
def fieldsStr (s : String) : List String := (wordsAux [] s.data).map String.mk

/-- Value of a list of decimal digit characters, most significant first. -/
def digitsVal (l : List Char) : Nat :=
  l.foldl (fun a c => 10 * a + (c.toNat - 48)) 0

/-- Model of C++ integer extraction from a token (operator>> into long, and
std::stoi at the call sites of this program): an optional sign followed by
the maximal run of decimal digits; no digits yields 0. -/
def parseStreamInt (s : String) : Int :=
  if s.data.headD ' ' = '-' then
    (if (s.data.tail.takeWhile Char.isDigit).isEmpty then 0
     else -(digitsVal (s.data.tail.takeWhile Char.isDigit) : Int))
  else if s.data.headD ' ' = '+' then
    (if (s.data.tail.takeWhile Char.isDigit).isEmpty then 0
     else (digitsVal (s.data.tail.takeWhile Char.isDigit) : Int))
  else (digitsVal (s.data.takeWhile Char.isDigit) : Int)

/-- Model of rfind(key, 0) == 0 of std::string: the line starts with the key. -/
def strStartsWith (s pre : String) : Bool := go pre.data s.data
where
  go : List Char → List Char → Bool
    | [], _ => true
    | _ :: _, [] => false
    | a :: as, b :: bs => a == b && go as bs

/-- Model of substr(pos) restricted to in-range positions: drop the first n
characters. -/
def strDrop (s : String) (n : Nat) : String := String.mk (s.data.drop n)

/-- Model of substr(0, n): the first n characters. -/
def strTake (s : String) (n : Nat) : String := String.mk (s.data.take n)

/-- Model of erase(0, find_first_not_of(" \t")): remove leading spaces and
tabs; a string of only whitespace becomes empty (npos erases everything). -/
def trimLeading (s : String) : String :=
  String.mk (s.data.dropWhile (fun c => c = ' ' || c = '\t'))

/-- struct SystemInfo of the source, with its default field values. -/
structure SystemInfo where
  total_mem_kb : Int
  free_mem_kb : Int
  load_avg : String
deriving DecidableEq

/-- The field defaults of struct SystemInfo. -/
def defaultSystemInfo : SystemInfo :=
  { total_mem_kb := 0, free_mem_kb := 0, load_avg := "0.0 0.0 0.0" }

/-- struct ProcessInfo of the source, with its default field values. -/
structure ProcessInfo where
  pid : Int
  name : String
  state : Char
  vmrss_kb : Int
  cmdline : String
deriving DecidableEq

/-- getMemValue of the source: stream-extract a key token then a long value
from one meminfo-style line; a missing or non-numeric value token leaves 0. -/
def getMemValue (line : String) : Int :=
  match fieldsStr line with
  | _ :: v :: _ => parseStreamInt v
  | _ => 0

/-- One iteration of the meminfo while loop of getSystemInfo: lines whose
leading token is MemTotal: or MemFree: update the respective field, any
other line is skipped. -/
def memStep (acc : SystemInfo) (line : String) : SystemInfo :=
  if strStartsWith line "MemTotal:" then { acc with total_mem_kb := getMemValue line }
  else if strStartsWith line "MemFree:" then { acc with free_mem_kb := getMemValue line }
  else acc

/-- getSystemInfo of the source.  meminfo is the line list of /proc/meminfo
(none when the file cannot be opened), loadavg the first line of
/proc/loadavg (none when that file cannot be opened).  A missing resource
leaves the defaults; a present loadavg line is split into tokens and the
first three (empty when absent) are rejoined with single spaces. -/
def getSystemInfo (meminfo : Option (List String)) (loadavg : Option String) : SystemInfo :=
  let sys := defaultSystemInfo
  let sys := match meminfo with
    | none => sys
    | some lines => lines.foldl memStep sys
  match loadavg with
  | none => sys
  | some line =>
    let toks := fieldsStr line
    { sys with load_avg := toks.getD 0 "" ++ " " ++ toks.getD 1 "" ++ " " ++ toks.getD 2 "" }

/-- One iteration of the status while loop of getProcessInfo: a Name: line
stores the remainder after the first six characters with leading whitespace
trimmed, a State: line stores the first character of the second token, a
VmRSS: line stores the getMemValue of the line. -/
def statusStep (acc : ProcessInfo) (line : String) : ProcessInfo :=
  if strStartsWith line "Name:" then { acc with name := trimLeading (strDrop line 6) }
  else if strStartsWith line "State:" then
    match fieldsStr line with
    | _ :: tok :: _ => { acc with state := tok.data.headD acc.state }
    | _ => acc
  else if strStartsWith line "VmRSS:" then { acc with vmrss_kb := getMemValue line }
  else acc

/-- getProcessInfo of the source.  pid is the enumerated directory name,
status the line list of /proc/[pid]/status (none when missing), cmdl the
raw first line of /proc/[pid]/cmdline (none when missing).  NUL bytes of
the command line are replaced by spaces and an empty result keeps the
[kernel] sentinel. -/
def getProcessInfo (pid : String) (status : Option (List String)) (cmdl : Option String) :
    ProcessInfo :=
  let proc : ProcessInfo :=
    { pid := parseStreamInt pid, name := "N/A", state := '?', vmrss_kb := 0,
      cmdline := "[kernel]" }
  let proc := match status with
    | none => proc
    | some lines => lines.foldl statusStep proc
  match cmdl with
  | none => proc
  | some raw =>
    let line := String.mk (raw.data.map (fun c => if c = Char.ofNat 0 then ' ' else c))
    if line.data.isEmpty then proc else { proc with cmdline := line }

/-- compareByMem of the source: strictly greater resident memory. -/
def compareByMem (a b : ProcessInfo) : Bool := decide (b.vmrss_kb < a.vmrss_kb)

/-- The order std::sort establishes for comparator compareByMem: a may
stand before b exactly when compareByMem b a is false, i.e. when the
resident memory of a is at least that of b. -/
def memDescOrder (a b : ProcessInfo) : Prop := b.vmrss_kb ≤ a.vmrss_kb

instance : DecidableRel memDescOrder := fun _ _ => Int.decLe _ _

instance : IsTotal ProcessInfo memDescOrder := ⟨fun a b => le_total b.vmrss_kb a.vmrss_kb⟩

instance : IsTrans ProcessInfo memDescOrder := ⟨fun _ _ _ h1 h2 => le_trans h2 h1⟩

/-- The std::sort call of display with comparator compareByMem.  std::sort
guarantees exactly that the result is a permutation of the input that is
sorted for the comparator (no element strictly precedes one placed before
it); insertionSort with the memDescOrder relation realises such an order. -/
def sortProcs (ps : List ProcessInfo) : List ProcessInfo :=
  List.insertionSort memDescOrder ps

/-- The rows display populates: the first 25 entries of the fully sorted
list (the loop of display breaks once the counter reaches 25). -/
def rankedRows (ps : List ProcessInfo) : List ProcessInfo := (sortProcs ps).take 25

/-- n copies of a character, as std::string(n, c). -/
def repC (n : Nat) (c : Char) : String := String.mk (List.replicate n c)

/-- std::setw(w) with right alignment (the default) for a following field s:
pad on the left with spaces up to width w; a longer field is not cut. -/
def padL (w : Nat) (s : String) : String := repC (w - strLen s) ' ' ++ s

/-- std::setw(w) with std::left for a following field s: pad on the right
with spaces up to width w; a longer field is not cut. -/
def padR (w : Nat) (s : String) : String := s ++ repC (w - strLen s) ' '

/-- Zero-pad the decimal rendering of a non-negative integer to w digits. -/
def pad0 (n : Int) (w : Nat) : String :=
  let s := toString n
  if strLen s < w then repC (w - strLen s) '0' ++ s else s

/-- Nearest integer to the exact quotient a / b (b positive), ties to even:
the value printf renders, since every quantity this program prints is a
machine integer divided by a power of two and hence exact in double. -/
def rndTEdiv (a b : Int) : Int :=
  let q := Int.fdiv a b
  let r2 := 2 * (a - q * b)
  if r2 < b then q else if b < r2 then q + 1 else if q % 2 = 0 then q else q + 1

/-- Fixed-point rendering of the exact value num / den to p decimal places,
as std::fixed with std::setprecision(p) renders the corresponding double
(exact here because den is a power of two and the inputs are small). -/
def fmtFixed (num den : Int) (p : Nat) : String :=
  let d : Int := 10 ^ p
  let n := rndTEdiv (num * d) den
  toString (n / d) ++ "." ++ pad0 (n % d) p

/-- The name truncation of display: more than 18 characters yields the
first 18 followed by two dots. -/
def shortName (s : String) : String :=
  if 18 < strLen s then strTake s 18 ++ ".." else s

/-- The command-line truncation of display: more than 34 characters yields
the first 34 followed by three dots. -/
def shortCmd (s : String) : String :=
  if 34 < strLen s then strTake s 34 ++ "..." else s

/-- The title text of display. -/
def titleStr : String := "--- System Monitor (Linux) ---"

/-- The top and bottom border line of display. -/
def borderLine : String := "+" ++ repC 86 '-' ++ "+"

/-- The centered title line of display. -/
def titleLine : String :=
  let pad := (86 - strLen titleStr) / 2
  "|" ++ repC pad ' ' ++ titleStr ++ repC (86 - pad - strLen titleStr) ' ' ++ "|"

/-- The empty interior line of display. -/
def emptyLine : String := "|" ++ repC 86 ' ' ++ "|"

/-- The system-summary line of display: used, total and free memory in
gigabytes (kB divided by 1024 twice) to two decimals, then the load
averages. -/
def memoryLine (sys : SystemInfo) : String :=
  "| Memory: " ++ padL 7 (fmtFixed (sys.total_mem_kb - sys.free_mem_kb) (1024 * 1024) 2)
    ++ "G / " ++ padL 7 (fmtFixed sys.total_mem_kb (1024 * 1024) 2) ++ "G Used"
    ++ " (" ++ padL 6 (fmtFixed sys.free_mem_kb (1024 * 1024) 2) ++ "G Free)"
    ++ padL 23 " "
    ++ "Load Avg (1,5,15 min): " ++ padL 12 sys.load_avg ++ " |"

/-- The process-count line of display. -/
def procCountLine (n : Nat) : String := "| Total Processes: " ++ padL 67 (toString n) ++ " |"

/-- The column-header line of display. -/
def headerLine : String :=
  "| " ++ padR 8 "PID" ++ padR 20 "NAME" ++ padR 4 "S" ++ padL 12 "MEM (MB)"
    ++ "  " ++ padR 36 "COMMAND" ++ " |"

/-- The separator line of display. -/
def sepLine : String := "|" ++ repC 86 '-' ++ "|"

/-- One populated process row of display: pid, truncated name, state,
resident memory in megabytes to one decimal, truncated command line. -/
def procLine (p : ProcessInfo) : String :=
  "| " ++ padR 8 (toString p.pid) ++ padR 20 (shortName p.name)
    ++ padR 4 (String.mk [p.state]) ++ padL 11 (fmtFixed p.vmrss_kb 1024 1) ++ "M"
    ++ "  " ++ padR 36 (shortCmd p.cmdline) ++ " |"

/-- One blank filler row of the process section of display. -/
def blankProcRow : String := "| " ++ padL 84 " " ++ " |"

/-- display of the source as the list of lines it writes: border, title,
blank, summary, process count, blank, header, separator, the populated
rows for the first 25 entries of the sorted process list, blank filler
rows until the process section holds 25 rows, closing border.  The filler
count 25 - min n 25 reproduces the counter logic of the source (the for
loop leaves the counter at min n 25 when it does not break, and past 25
when it breaks, so the while loop then emits no filler). -/
def display (sys : SystemInfo) (ps : List ProcessInfo) : List String :=
  [borderLine, titleLine, emptyLine, memoryLine sys, procCountLine ps.length,
    emptyLine, headerLine, sepLine]
  ++ (rankedRows ps).map procLine
  ++ List.replicate (25 - min ps.length 25) blankProcRow
  ++ [borderLine]

/-- Interior column count of a rendered line: its length without the two
border characters. -/
def interiorWidth (s : String) : Nat := strLen s - 2

/-- One entry of the /proc directory listing: its name and whether its
d_type is DT_DIR. -/
structure DirEnt where
  d_name : String
  isDir : Bool
deriving DecidableEq

/-- isNumeric of the source: non-empty and all decimal digits. -/
def isNumeric (s : String) : Bool := !s.data.isEmpty && s.data.all Char.isDigit

/-- The pid-selection loop of main: directory entries whose name is fully
numeric, kept in enumeration order. -/
def enumeratePids (entries : List DirEnt) : List String :=
  (entries.filter (fun e => e.isDir && isNumeric e.d_name)).map (fun e => e.d_name)

/-- The external resources one loop iteration of main reads: the meminfo
and loadavg resources, the /proc directory listing (none when opendir
fails), and the per-pid status and cmdline resources. -/
structure ProcView where
  meminfo : Option (List String)
  loadavg : Option String
  procEntries : Option (List DirEnt)
  statusOf : String → Option (List String)
  cmdlineOf : String → Option String

/-- The process vector main builds: getProcessInfo for every enumerated
pid, in enumeration order. -/
def snapshotProcs (v : ProcView) (entries : List DirEnt) : List ProcessInfo :=
  (enumeratePids entries).map (fun p => getProcessInfo p (v.statusOf p) (v.cmdlineOf p))

/-- One iteration of the main loop: gather system info, then either fail
with exit code 1 before rendering anything when the /proc directory cannot
be opened, or render the display for the collected processes. -/
def runCycle (v : ProcView) : Except Nat (List String) :=
  let sys := getSystemInfo v.meminfo v.loadavg
  match v.procEntries with
  | none => Except.error 1
  | some entries => Except.ok (display sys (snapshotProcs v entries))

/-- The meminfo input of the worked scenario of the spec. -/
def memC5 : SystemInfo :=
  getSystemInfo (some ["MemTotal:       16301584 kB", "MemFree:        8150792 kB"]) none

/-- A small concrete /proc listing: two process directories and one
non-numeric entry. -/
def entriesW : List DirEnt :=
  [{ d_name := "12", isDir := true }, { d_name := "5", isDir := true },
   { d_name := "tty", isDir := false }]

/-- A concrete resource view over entriesW whose per-pid reads all fail. -/
def viewW : ProcView :=
  { meminfo := none, loadavg := none, procEntries := some entriesW,
    statusOf := fun _ => none, cmdlineOf := fun _ => none }

/-! Helper lemmas shared by several claims. -/

theorem statusStep_pid (acc : ProcessInfo) (line : String) :
    (statusStep acc line).pid = acc.pid := by
  unfold statusStep
  split
  · rfl
  · split
    · split <;> rfl
    · split
      · rfl
      · rfl

theorem foldl_statusStep_pid (lines : List String) (acc : ProcessInfo) :
    (lines.foldl statusStep acc).pid = acc.pid := by
  induction lines generalizing acc with
  | nil => rfl
  | cons l ls ih => rw [List.foldl_cons, ih, statusStep_pid]

theorem getProcessInfo_pid (p : String) (st : Option (List String)) (cl : Option String) :
    (getProcessInfo p st cl).pid = parseStreamInt p := by
  unfold getProcessInfo
  cases st with
  | none =>
    cases cl with
    | none => rfl
    | some raw => dsimp only; split <;> rfl
  | some lines =>
    cases cl with
    | none => exact foldl_statusStep_pid lines _
    | some raw =>
      dsimp only
      split
      · exact foldl_statusStep_pid lines _
      · exact foldl_statusStep_pid lines _

theorem rankedRows_length (ps : List ProcessInfo) :
    (rankedRows ps).length = min ps.length 25 := by
  simp [rankedRows, sortProcs, List.length_take, List.length_insertionSort, Nat.min_comm]

/-- C1: the rows display renders are ordered by resident memory descending
(any adjacent pair is non-increasing in vmrss_kb, matching the comparator
compareByMem), and the cut to 25 rows is a prefix of the fully sorted
permutation of the whole process list, i.e. truncation happens after the
full sort. -/
theorem claim1_sorted_before_truncation (sys : SystemInfo) (ps : List ProcessInfo) :
    (sortProcs ps).Pairwise memDescOrder
    ∧ (sortProcs ps).Perm ps
    ∧ (∀ a b, memDescOrder a b ↔ ¬ compareByMem b a = true)
    ∧ rankedRows ps = (sortProcs ps).take 25
    ∧ (rankedRows ps).Chain' (fun a b => b.vmrss_kb ≤ a.vmrss_kb)
    ∧ display sys ps
      = [borderLine, titleLine, emptyLine, memoryLine sys, procCountLine ps.length,
          emptyLine, headerLine, sepLine]
        ++ (rankedRows ps).map procLine
        ++ List.replicate (25 - min ps.length 25) blankProcRow ++ [borderLine] := by
  refine ⟨List.sorted_insertionSort _ _, List.perm_insertionSort _ _, ?_, rfl, ?_, rfl⟩
  · intro a b
    simp [memDescOrder, compareByMem, not_lt]
  · exact (List.Pairwise.sublist (List.take_sublist 25 _)
      (List.sorted_insertionSort memDescOrder ps)).chain'

/-- C2: the process section of display holds exactly min(n, 25) populated
rows followed by exactly 25 - min(n, 25) blank filler rows, so the section
is always 25 rows and the whole rendering is always 34 lines. -/
theorem claim2_row_counts (sys : SystemInfo) (ps : List ProcessInfo) :
    ((rankedRows ps).map procLine).length = min ps.length 25
    ∧ (List.replicate (25 - min ps.length 25) blankProcRow).length = 25 - min ps.length 25
    ∧ ((rankedRows ps).map procLine
        ++ List.replicate (25 - min ps.length 25) blankProcRow).length = 25
    ∧ (display sys ps).length = 34 := by
  have hlen := rankedRows_length ps
  refine ⟨by simpa using hlen, List.length_replicate _ _, ?_, ?_⟩
  · rw [List.length_append, List.length_map, hlen, List.length_replicate]
    omega
  · simp only [display, List.length_append, List.length_map, List.length_replicate,
      List.length_cons, List.length_nil, hlen]
    omega

/-- C3: non-fatal read failures surface only as default field values: a
missing memory-info resource leaves both memory fields 0, a process whose
per-process resources are missing still yields a record with name N/A,
state question mark, zero resident memory and command [kernel], its
rendered row shows 0.0M, and a cycle whose per-item reads all fail still
renders (only a missing process root is an error). -/
theorem claim3_failures_absorbed (p : String) (la : Option String)
    (ms : String → Option (List String)) (mc : String → Option String)
    (entries : List DirEnt) :
    (getSystemInfo none la).total_mem_kb = 0
    ∧ (getSystemInfo none la).free_mem_kb = 0
    ∧ getProcessInfo p none none
      = { pid := parseStreamInt p, name := "N/A", state := '?', vmrss_kb := 0,
          cmdline := "[kernel]" }
    ∧ procLine (getProcessInfo p none none)
      = "| " ++ padR 8 (toString (parseStreamInt p)) ++ padR 20 "N/A" ++ padR 4 "?"
        ++ padL 11 "0.0" ++ "M" ++ "  " ++ padR 36 "[kernel]" ++ " |"
    ∧ runCycle { meminfo := none, loadavg := la, procEntries := some entries,
                 statusOf := ms, cmdlineOf := mc }
      = Except.ok (display (getSystemInfo none la)
          (snapshotProcs { meminfo := none, loadavg := la, procEntries := some entries,
                           statusOf := ms, cmdlineOf := mc } entries)) := by
  refine ⟨?_, ?_, rfl, rfl, rfl⟩
  · cases la <;> rfl
  · cases la <;> rfl

/-- C4: a missing process root is the only fatal condition: the cycle then
stops with exit code 1 and produces no rendered output, while any present
process root makes the cycle render normally whatever the other resources
returned. -/
theorem claim4_enumeration_only_fatal (v : ProcView) :
    (v.procEntries = none → runCycle v = Except.error 1)
    ∧ ∀ entries, v.procEntries = some entries →
        runCycle v = Except.ok
          (display (getSystemInfo v.meminfo v.loadavg) (snapshotProcs v entries)) := by
  constructor
  · intro h
    unfold runCycle
    rw [h]
  · intro entries h
    unfold runCycle
    rw [h]

/-- C4 witness: a concrete cycle with a missing process root exits with
code 1, and one with an empty process root renders. -/
theorem claim4_enumeration_only_fatal_witness :
    runCycle { meminfo := none, loadavg := none, procEntries := none,
               statusOf := fun _ => none, cmdlineOf := fun _ => none } = Except.error 1
    ∧ runCycle { meminfo := none, loadavg := none, procEntries := some [],
                 statusOf := fun _ => none, cmdlineOf := fun _ => none }
      = Except.ok (display (getSystemInfo none none)
          (snapshotProcs { meminfo := none, loadavg := none, procEntries := some [],
                           statusOf := fun _ => none, cmdlineOf := fun _ => none } [])) :=
  ⟨(claim4_enumeration_only_fatal _).1 rfl, (claim4_enumeration_only_fatal _).2 [] rfl⟩

theorem rndTE_spec (a b q r : Int) (hb : 0 < b) (hqr : a = b * q + r) (h0 : 0 ≤ r)
    (hrb : r < b) (hq : Int.fdiv a b = q) :
    -b ≤ 2 * a - 2 * rndTEdiv a b * b ∧ 2 * a - 2 * rndTEdiv a b * b ≤ b := by
  unfold rndTEdiv
  rw [hq]
  subst hqr
  dsimp only
  have hcond : b * q + r - q * b = r := by ring
  rw [hcond]
  split_ifs <;> constructor <;> nlinarith [mul_comm b q]

/-- The integer rndTEdiv a b is within half a unit of the exact quotient
a / b: twice the difference a - rndTEdiv a b * b lies between -b and b.
This is the sense in which the rendered fixed-point digits equal the exact
value to the requested number of decimal places. -/
theorem rndTEdiv_close (a b : Int) (ha : 0 ≤ a) (hb : 0 < b) :
    -b ≤ 2 * a - 2 * rndTEdiv a b * b ∧ 2 * a - 2 * rndTEdiv a b * b ≤ b :=
  rndTE_spec a b (Int.fdiv a b) (a.fmod b) hb
    (by linarith [Int.fmod_add_fdiv a b]) (Int.fmod_nonneg ha hb.le)
    (Int.fmod_lt_of_pos a hb) rfl

/-- C5 counterexample: for MemTotal 16301584 kB and MemFree 8150792 kB the
rendered Used value is 7.77, not the claimed 7.63 (free is exactly half of
total, so used equals free), and the rendered Total is 15.55, not the
claimed 15.54 (15.5464 rounds up at two decimals). -/
theorem claim5_counterexample :
    memC5.total_mem_kb = 16301584
    ∧ memC5.free_mem_kb = 8150792
    ∧ fmtFixed (memC5.total_mem_kb - memC5.free_mem_kb) (1024 * 1024) 2 = "7.77"
    ∧ ¬ fmtFixed (memC5.total_mem_kb - memC5.free_mem_kb) (1024 * 1024) 2 = "7.63"
    ∧ fmtFixed memC5.total_mem_kb (1024 * 1024) 2 = "15.55"
    ∧ ¬ fmtFixed memC5.total_mem_kb (1024 * 1024) 2 = "15.54"
    ∧ memoryLine memC5
      = "| Memory:    7.77G /   15.55G Used (  7.77G Free)                       Load Avg (1,5,15 min):  0.0 0.0 0.0 |" := by
  decide

/-- C5 amended: the summary line renders Used as (total - free) / 1024 / 1024
and Free as free / 1024 / 1024, each fixed-point to two decimals (the
rendered hundredths value n satisfies the half-unit bound of rndTEdiv
against the exact quotient); for the worked scenario the values are
Used 7.77G, Total 15.55G, Free 7.77G. -/
theorem claim5_memory_rendering (total free : Int) (la : String)
    (h0 : 0 ≤ free) (h1 : free ≤ total) :
    memoryLine { total_mem_kb := total, free_mem_kb := free, load_avg := la }
      = "| Memory: " ++ padL 7 (fmtFixed (total - free) (1024 * 1024) 2) ++ "G / "
        ++ padL 7 (fmtFixed total (1024 * 1024) 2) ++ "G Used"
        ++ " (" ++ padL 6 (fmtFixed free (1024 * 1024) 2) ++ "G Free)"
        ++ padL 23 " " ++ "Load Avg (1,5,15 min): " ++ padL 12 la ++ " |"
    ∧ (-(1024 * 1024 : Int)
        ≤ 2 * ((total - free) * 100)
          - 2 * rndTEdiv ((total - free) * 100) (1024 * 1024) * (1024 * 1024)
       ∧ 2 * ((total - free) * 100)
          - 2 * rndTEdiv ((total - free) * 100) (1024 * 1024) * (1024 * 1024)
         ≤ 1024 * 1024)
    ∧ (-(1024 * 1024 : Int)
        ≤ 2 * (free * 100) - 2 * rndTEdiv (free * 100) (1024 * 1024) * (1024 * 1024)
       ∧ 2 * (free * 100) - 2 * rndTEdiv (free * 100) (1024 * 1024) * (1024 * 1024)
         ≤ 1024 * 1024)
    ∧ fmtFixed (16301584 - 8150792) (1024 * 1024) 2 = "7.77"
    ∧ fmtFixed 16301584 (1024 * 1024) 2 = "15.55"
    ∧ fmtFixed 8150792 (1024 * 1024) 2 = "7.77" := by
  refine ⟨rfl, ?_, ?_, by decide, by decide, by decide⟩
  · exact rndTEdiv_close _ _ (by nlinarith) (by norm_num)
  · exact rndTEdiv_close _ _ (by nlinarith) (by norm_num)

/-- C5 witness: the amended rendering theorem applied at the worked
scenario values. -/
theorem claim5_memory_rendering_witness :
    (0 : Int) ≤ 8150792 ∧ (8150792 : Int) ≤ 16301584
    ∧ fmtFixed (16301584 - 8150792) (1024 * 1024) 2 = "7.77" :=
  ⟨by decide, by decide,
    (claim5_memory_rendering 16301584 8150792 "0.0 0.0 0.0"
      (by decide) (by decide)).2.2.2.1⟩

/-- C6: a name longer than 18 characters renders as its first 18 characters
followed by exactly two dots (total 20) and a short name renders unchanged;
a command line longer than 34 characters renders as its first 34 characters
followed by exactly three dots (total 37) and a short one renders
unchanged. -/
theorem claim6_truncation (s c : String) :
    (18 < strLen s → shortName s = strTake s 18 ++ ".." ∧ strLen (shortName s) = 20)
    ∧ (strLen s ≤ 18 → shortName s = s)
    ∧ (34 < strLen c → shortCmd c = strTake c 34 ++ "..." ∧ strLen (shortCmd c) = 37)
    ∧ (strLen c ≤ 34 → shortCmd c = c) := by
  refine ⟨fun h => ⟨?_, ?_⟩, fun h => ?_, fun h => ⟨?_, ?_⟩, fun h => ?_⟩
  · unfold shortName
    rw [if_pos h]
  · unfold shortName
    rw [if_pos h]
    simp [strLen, strTake, String.data_append] at h ⊢
    omega
  · unfold shortName
    rw [if_neg (by omega)]
  · unfold shortCmd
    rw [if_pos h]
  · unfold shortCmd
    rw [if_pos h]
    simp [strLen, strTake, String.data_append] at h ⊢
    omega
  · unfold shortCmd
    rw [if_neg (by omega)]

/-- C6 witness: a 25-character name is cut to its first 18 characters plus
two dots, an 18-character name is unchanged, a 40-character command is cut
to its first 34 characters plus three dots. -/
theorem claim6_truncation_witness :
    (18 < strLen "abcdefghijklmnopqrstuvwxy"
      ∧ shortName "abcdefghijklmnopqrstuvwxy"
        = strTake "abcdefghijklmnopqrstuvwxy" 18 ++ "..")
    ∧ (strLen "abcdefghijklmnopqr" ≤ 18
      ∧ shortName "abcdefghijklmnopqr" = "abcdefghijklmnopqr")
    ∧ (34 < strLen "/usr/bin/some-process --with-flags=12345"
      ∧ shortCmd "/usr/bin/some-process --with-flags=12345"
        = strTake "/usr/bin/some-process --with-flags=12345" 34 ++ "...") :=
  ⟨⟨by decide, ((claim6_truncation "abcdefghijklmnopqrstuvwxy" "").1 (by decide)).1⟩,
   ⟨by decide, (claim6_truncation "abcdefghijklmnopqr" "").2.1 (by decide)⟩,
   ⟨by decide, ((claim6_truncation "" "/usr/bin/some-process --with-flags=12345").2.2.1
      (by decide)).1⟩⟩

/-- C7 counterexample: not every rendered line has an 86-column interior:
the system-summary line of the default snapshot has a 107-column interior
and the column-header line has an 84-column interior. -/
theorem claim7_counterexample :
    interiorWidth (memoryLine defaultSystemInfo) = 107
    ∧ interiorWidth headerLine = 84
    ∧ ¬ interiorWidth (memoryLine defaultSystemInfo) = 86
    ∧ ¬ interiorWidth headerLine = 86 := by
  decide

/-- C7 amended: the interior width is not uniform: border, title, blank,
process-count, separator and filler lines measure 86 interior columns, but
the system-summary line measures 107 (at default field widths) and the
header and populated data rows measure 84, as the per-line widths of a
concrete one-process snapshot show. -/
theorem claim7_interior_widths :
    interiorWidth borderLine = 86
    ∧ interiorWidth titleLine = 86
    ∧ interiorWidth emptyLine = 86
    ∧ interiorWidth sepLine = 86
    ∧ interiorWidth blankProcRow = 86
    ∧ interiorWidth (procCountLine 1) = 86
    ∧ List.map interiorWidth
        (display defaultSystemInfo
          [{ pid := 1, name := "N/A", state := '?', vmrss_kb := 0, cmdline := "[kernel]" }])
      = [86, 86, 86, 107, 86, 86, 84, 86] ++ [84] ++ List.replicate 24 86 ++ [86] := by
  decide

theorem wordsAux_cons_token : ∀ (rest cur : List Char), cur.isEmpty = false →
    ∃ w ts, wordsAux cur rest = (cur.reverse ++ w) :: ts := by
  intro rest
  induction rest with
  | nil =>
    intro cur h
    exact ⟨[], [], by simp [wordsAux, h]⟩
  | cons c cs ih =>
    intro cur h
    by_cases hc : isStreamWs c
    · exact ⟨[], wordsAux [] cs, by simp [wordsAux, hc, h]⟩
    · obtain ⟨w, ts, hw⟩ := ih (c :: cur) (by simp)
      refine ⟨c :: w, ts, ?_⟩
      simp only [wordsAux, hc, if_false, Bool.false_eq_true, ite_false, hw,
        List.reverse_cons, List.append_assoc, List.singleton_append]

theorem fieldsStr_state (c : Char) (rest : List Char) (hc : isStreamWs c = false) :
    ∃ w ts, fieldsStr (String.mk ('S' :: 't' :: 'a' :: 't' :: 'e' :: ':' :: '\t' :: c :: rest))
      = "State:" :: String.mk (c :: w) :: ts := by
  obtain ⟨w, ts, hw⟩ := wordsAux_cons_token rest [c] (by simp)
  refine ⟨w, ts.map String.mk, ?_⟩
  have h0 : wordsAux [] ('S' :: 't' :: 'a' :: 't' :: 'e' :: ':' :: '\t' :: c :: rest)
      = ['S', 't', 'a', 't', 'e', ':'] :: wordsAux [] (c :: rest) := rfl
  have h1 : wordsAux [] (c :: rest) = wordsAux [c] rest := by
    simp [wordsAux, hc]
  show (wordsAux [] ('S' :: 't' :: 'a' :: 't' :: 'e' :: ':' :: '\t' :: c :: rest)).map String.mk
      = "State:" :: String.mk (c :: w) :: ts.map String.mk
  rw [h0, h1, hw]
  simp only [List.map_cons, List.reverse_singleton, List.singleton_append]

/-- C8 counterexample: the Name field is not the first whitespace-delimited
token after the key: for the status line Name followed by tab and the text
Socket Thread, the code stores the whole remainder Socket Thread, while the
first token after the key is Socket. -/
theorem claim8_counterexample :
    (getProcessInfo "1" (some ["Name:\tSocket Thread"]) none).name = "Socket Thread"
    ∧ (fieldsStr "Name:\tSocket Thread").getD 1 "" = "Socket"
    ∧ ¬ (getProcessInfo "1" (some ["Name:\tSocket Thread"]) none).name
        = (fieldsStr "Name:\tSocket Thread").getD 1 "" := by
  decide

/-- C8 amended: a Name line stores the entire remainder of the line after
its first six characters with leading whitespace trimmed (internal spaces
kept, not only the first token); a State line stores the first character of
the token following the key; a VmRSS line stores the value parsed by
getMemValue, the same parser used for the system memory values; a missing
resource leaves every field at its default, and a line matching no key
leaves the record unchanged. -/
theorem claim8_status_parsing (p : String) :
    (∀ nm : List Char,
      (getProcessInfo p (some [String.mk ('N' :: 'a' :: 'm' :: 'e' :: ':' :: '\t' :: nm)])
        none).name = trimLeading (String.mk nm))
    ∧ (∀ (c : Char) (rest : List Char), isStreamWs c = false →
        (getProcessInfo p
          (some [String.mk ('S' :: 't' :: 'a' :: 't' :: 'e' :: ':' :: '\t' :: c :: rest)])
          none).state = c)
    ∧ (∀ vm : List Char,
        (getProcessInfo p
          (some [String.mk ('V' :: 'm' :: 'R' :: 'S' :: 'S' :: ':' :: '\t' :: vm)])
          none).vmrss_kb
        = getMemValue (String.mk ('V' :: 'm' :: 'R' :: 'S' :: 'S' :: ':' :: '\t' :: vm)))
    ∧ (∀ vm : List Char,
        (getSystemInfo
          (some [String.mk ('M' :: 'e' :: 'm' :: 'T' :: 'o' :: 't' :: 'a' :: 'l' :: ':' :: '\t' :: vm)])
          none).total_mem_kb
        = getMemValue (String.mk ('M' :: 'e' :: 'm' :: 'T' :: 'o' :: 't' :: 'a' :: 'l' :: ':' :: '\t' :: vm)))
    ∧ getProcessInfo p none none
      = { pid := parseStreamInt p, name := "N/A", state := '?', vmrss_kb := 0,
          cmdline := "[kernel]" }
    ∧ (∀ (line : String) (acc : ProcessInfo),
        strStartsWith line "Name:" = false → strStartsWith line "State:" = false →
        strStartsWith line "VmRSS:" = false → statusStep acc line = acc) := by
  refine ⟨fun nm => rfl, ?_, fun vm => rfl, fun vm => rfl, rfl, ?_⟩
  · intro c rest hc
    obtain ⟨w, ts, hw⟩ := fieldsStr_state c rest hc
    show (statusStep
      { pid := parseStreamInt p, name := "N/A", state := '?', vmrss_kb := 0,
        cmdline := "[kernel]" }
      (String.mk ('S' :: 't' :: 'a' :: 't' :: 'e' :: ':' :: '\t' :: c :: rest))).state = c
    unfold statusStep
    have hn : strStartsWith
        (String.mk ('S' :: 't' :: 'a' :: 't' :: 'e' :: ':' :: '\t' :: c :: rest)) "Name:"
        = false := rfl
    have hs : strStartsWith
        (String.mk ('S' :: 't' :: 'a' :: 't' :: 'e' :: ':' :: '\t' :: c :: rest)) "State:"
        = true := rfl
    rw [hn, hs, hw]
    simp
  · intro line acc h1 h2 h3
    unfold statusStep
    rw [h1, h2, h3]
    rfl

/-- C8 witness: a concrete State line with token R stores state R. -/
theorem claim8_status_parsing_witness :
    isStreamWs 'R' = false
    ∧ (getProcessInfo "7"
        (some [String.mk ('S' :: 't' :: 'a' :: 't' :: 'e' :: ':' :: '\t' :: 'R' :: " (running)".data)])
        none).state = 'R' :=
  ⟨by decide, (claim8_status_parsing "7").2.1 'R' (" (running)".data) (by decide)⟩

/-- C10: the documented default load-average string is replaced whenever the
load-average resource is present, by the first three whitespace tokens of
its first line rejoined with single spaces, missing positions becoming
empty strings; a one-token first line 0.52 yields the string 0.52 followed
by two separator spaces, not the default triple. -/
theorem claim10_loadavg_rebuilt (mi : Option (List String)) (line : String) :
    (getSystemInfo mi (some line)).load_avg
      = (fieldsStr line).getD 0 "" ++ " " ++ (fieldsStr line).getD 1 ""
        ++ " " ++ (fieldsStr line).getD 2 ""
    ∧ (getSystemInfo none (some "0.52")).load_avg = "0.52  "
    ∧ ¬ (getSystemInfo none (some "0.52")).load_avg = defaultSystemInfo.load_avg := by
  refine ⟨?_, by decide, by decide⟩
  cases mi <;> rfl

theorem digitsVal_foldl (l : List Char) (a : Nat) :
    l.foldl (fun x c => 10 * x + (c.toNat - 48)) a = a * 10 ^ l.length + digitsVal l := by
  induction l generalizing a with
  | nil => simp [digitsVal]
  | cons c cs ih =>
    have h1 := ih (10 * a + (c.toNat - 48))
    have h2 := ih (c.toNat - 48)
    have hd : digitsVal (c :: cs) = (c.toNat - 48) * 10 ^ cs.length + digitsVal cs := by
      show cs.foldl _ (10 * 0 + (c.toNat - 48)) = _
      rw [show 10 * 0 + (c.toNat - 48) = c.toNat - 48 by omega]
      exact h2
    show cs.foldl _ (10 * a + (c.toNat - 48)) = a * 10 ^ (c :: cs).length + digitsVal (c :: cs)
    rw [h1, hd, List.length_cons, pow_succ]
    ring

theorem digitsVal_cons (c : Char) (cs : List Char) :
    digitsVal (c :: cs) = (c.toNat - 48) * 10 ^ cs.length + digitsVal cs := by
  show cs.foldl _ (10 * 0 + (c.toNat - 48)) = _
  rw [show 10 * 0 + (c.toNat - 48) = c.toNat - 48 by omega]
  exact digitsVal_foldl cs (c.toNat - 48)

theorem char_digit_bounds (c : Char) (h : c.isDigit = true) :
    48 ≤ c.toNat ∧ c.toNat ≤ 57 := by
  simp only [Char.isDigit, decide_eq_true_eq, Bool.and_eq_true, decide_eq_true_iff] at h
  obtain ⟨h1, h2⟩ := h
  exact ⟨h1, h2⟩

theorem char_toNat_inj (c d : Char) (h : c.toNat = d.toNat) : c = d := by
  have hc := Char.ofNat_toNat c
  have hd := Char.ofNat_toNat d
  rw [← hc, ← hd, h]

theorem digitsVal_lt (l : List Char) (h : ∀ c ∈ l, c.isDigit = true) :
    digitsVal l < 10 ^ l.length := by
  induction l with
  | nil => simp [digitsVal]
  | cons c cs ih =>
    have hv := ih (fun x hx => h x (List.mem_cons_of_mem _ hx))
    have hb := char_digit_bounds c (h c (List.mem_cons_self _ _))
    have hd9 : c.toNat - 48 ≤ 9 := by omega
    have h1 : (c.toNat - 48) * 10 ^ cs.length ≤ 9 * 10 ^ cs.length :=
      Nat.mul_le_mul_right _ hd9
    rw [digitsVal_cons, List.length_cons, pow_succ]
    omega

theorem digitsVal_head_lower (c : Char) (cs : List Char) (hd : c.isDigit = true)
    (h0 : ¬ c = '0') : 10 ^ cs.length ≤ digitsVal (c :: cs) := by
  have hb := char_digit_bounds c hd
  have h48 : ¬ c.toNat = 48 := by
    intro h
    exact h0 (char_toNat_inj c '0' (by rw [h]; rfl))
  have h1 := Nat.le_mul_of_pos_left (10 ^ cs.length) (show 0 < c.toNat - 48 by omega)
  rw [digitsVal_cons]
  omega

theorem digitsVal_inj_len : ∀ (l1 l2 : List Char), l1.length = l2.length →
    (∀ c ∈ l1, c.isDigit = true) → (∀ c ∈ l2, c.isDigit = true) →
    digitsVal l1 = digitsVal l2 → l1 = l2 := by
  intro l1
  induction l1 with
  | nil =>
    intro l2 hlen _ _ _
    cases l2 with
    | nil => rfl
    | cons d ds => simp at hlen
  | cons c cs ih =>
    intro l2 hlen h1 h2 heq
    cases l2 with
    | nil => simp at hlen
    | cons d ds =>
      have hlen' : cs.length = ds.length := by simpa using hlen
      rw [digitsVal_cons, digitsVal_cons, hlen'] at heq
      have hp : 0 < 10 ^ ds.length := Nat.one_le_pow _ _ (by norm_num)
      have hv1 : digitsVal cs < 10 ^ ds.length := by
        rw [← hlen']
        exact digitsVal_lt cs (fun x hx => h1 x (List.mem_cons_of_mem _ hx))
      have hv2 : digitsVal ds < 10 ^ ds.length :=
        digitsVal_lt ds (fun x hx => h2 x (List.mem_cons_of_mem _ hx))
      rw [mul_comm (c.toNat - 48), mul_comm (d.toNat - 48)] at heq
      have e1 : (10 ^ ds.length * (c.toNat - 48) + digitsVal cs) / 10 ^ ds.length
          = c.toNat - 48 := by
        rw [Nat.mul_add_div hp, Nat.div_eq_of_lt hv1]
        omega
      have e2 : (10 ^ ds.length * (d.toNat - 48) + digitsVal ds) / 10 ^ ds.length
          = d.toNat - 48 := by
        rw [Nat.mul_add_div hp, Nat.div_eq_of_lt hv2]
        omega
      have hdig : c.toNat - 48 = d.toNat - 48 := by
        rw [← e1, ← e2, heq]
      have hbc := char_digit_bounds c (h1 c (List.mem_cons_self _ _))
      have hbd := char_digit_bounds d (h2 d (List.mem_cons_self _ _))
      have hchar : c = d := char_toNat_inj c d (by omega)
      have hrest : digitsVal cs = digitsVal ds := by
        rw [hdig] at heq
        exact Nat.add_left_cancel heq
      rw [hchar, ih ds hlen' (fun x hx => h1 x (List.mem_cons_of_mem _ hx))
        (fun x hx => h2 x (List.mem_cons_of_mem _ hx)) hrest]

theorem digitsVal_inj (c1 : Char) (cs1 : List Char) (c2 : Char) (cs2 : List Char)
    (h1 : ∀ c ∈ c1 :: cs1, c.isDigit = true) (h2 : ∀ c ∈ c2 :: cs2, c.isDigit = true)
    (hz1 : ¬ c1 = '0') (hz2 : ¬ c2 = '0')
    (heq : digitsVal (c1 :: cs1) = digitsVal (c2 :: cs2)) : c1 :: cs1 = c2 :: cs2 := by
  have hlen : cs1.length = cs2.length := by
    by_contra hne
    rcases Nat.lt_or_ge cs1.length cs2.length with hlt | hge
    · have hup : digitsVal (c1 :: cs1) < 10 ^ (cs1.length + 1) := by
        have := digitsVal_lt (c1 :: cs1) h1
        simpa using this
      have hlow : 10 ^ cs2.length ≤ digitsVal (c2 :: cs2) :=
        digitsVal_head_lower _ _ (h2 _ (List.mem_cons_self _ _)) hz2
      have hle : 10 ^ (cs1.length + 1) ≤ 10 ^ cs2.length :=
        Nat.pow_le_pow_right (by norm_num) (by omega)
      omega
    · have hlt2 : cs2.length < cs1.length := by omega
      have hup : digitsVal (c2 :: cs2) < 10 ^ (cs2.length + 1) := by
        have := digitsVal_lt (c2 :: cs2) h2
        simpa using this
      have hlow : 10 ^ cs1.length ≤ digitsVal (c1 :: cs1) :=
        digitsVal_head_lower _ _ (h1 _ (List.mem_cons_self _ _)) hz1
      have hle : 10 ^ (cs2.length + 1) ≤ 10 ^ cs1.length :=
        Nat.pow_le_pow_right (by norm_num) (by omega)
      omega
  exact digitsVal_inj_len _ _ (by simpa using hlen) h1 h2 heq

theorem parseStreamInt_digits (s : String) (h : ∀ c ∈ s.data, c.isDigit = true)
    (hn : ¬ s.data = []) : parseStreamInt s = (digitsVal s.data : Int) := by
  cases hs : s.data with
  | nil => exact absurd hs hn
  | cons c cs =>
    have hcd : c.isDigit = true := h c (by rw [hs]; exact List.mem_cons_self _ _)
    have hm : ¬ c = '-' := by
      intro he
      rw [he] at hcd
      exact absurd hcd (by decide)
    have hp : ¬ c = '+' := by
      intro he
      rw [he] at hcd
      exact absurd hcd (by decide)
    have htw : (c :: cs).takeWhile Char.isDigit = c :: cs :=
      List.takeWhile_eq_self_iff.mpr (by rw [← hs]; exact h)
    unfold parseStreamInt
    rw [hs]
    simp only [List.headD_cons]
    rw [if_neg hm, if_neg hp, htw]

/-- C9: in a snapshot assembled from a process-root listing whose numeric
entry names are canonical decimal process identifiers (pairwise distinct
names without a leading zero digit, as the OS process root provides), every
record carries a positive pid and the pids are pairwise distinct. -/
theorem claim9_pid_invariants (v : ProcView) (entries : List DirEnt)
    (hnodup : (entries.map (fun e => e.d_name)).Nodup)
    (hcanon : ∀ e ∈ entries, (e.isDir && isNumeric e.d_name) = true →
      ¬ e.d_name.data.headD '0' = '0') :
    (∀ q ∈ snapshotProcs v entries, 0 < q.pid)
    ∧ (snapshotProcs v entries).Pairwise (fun a b => ¬ a.pid = b.pid) := by
  have hprop : ∀ s ∈ enumeratePids entries,
      (∀ c ∈ s.data, c.isDigit = true) ∧ ¬ s.data = [] ∧ ¬ s.data.headD '0' = '0' := by
    intro s hs
    obtain ⟨e, he, rfl⟩ := List.mem_map.mp hs
    obtain ⟨heM, hf⟩ := List.mem_filter.mp he
    have hnum : isNumeric e.d_name = true := (Bool.and_eq_true .. |>.mp hf).2
    have hpieces := hnum
    simp only [isNumeric, Bool.and_eq_true, Bool.not_eq_true', List.all_eq_true] at hpieces
    refine ⟨hpieces.2, ?_, hcanon e heM hf⟩
    intro hnil
    rw [hnil] at hpieces
    exact absurd hpieces.1 (by decide)
  have hpid : ∀ s ∈ enumeratePids entries, parseStreamInt s = (digitsVal s.data : Int) := by
    intro s hs
    obtain ⟨h1, h2, _⟩ := hprop s hs
    exact parseStreamInt_digits s h1 h2
  constructor
  · intro q hq
    obtain ⟨s, hsm, rfl⟩ := List.mem_map.mp hq
    obtain ⟨h1, h2, h3⟩ := hprop s hsm
    rw [getProcessInfo_pid, hpid s hsm]
    rw [Int.natCast_pos]
    cases hs : s.data with
    | nil => exact absurd hs h2
    | cons c cs =>
      have hc0 : ¬ c = '0' := by
        rw [hs] at h3
        simpa using h3
      have hcd : c.isDigit = true := h1 c (by rw [hs]; exact List.mem_cons_self _ _)
      have := digitsVal_head_lower c cs hcd hc0
      have hpos : 0 < 10 ^ cs.length := Nat.one_le_pow _ _ (by norm_num)
      omega
  · have hnod : (enumeratePids entries).Nodup :=
      List.Nodup.sublist (List.Sublist.map _ (List.filter_sublist entries)) hnodup
    have hinj : ∀ s ∈ enumeratePids entries, ∀ t ∈ enumeratePids entries,
        parseStreamInt s = parseStreamInt t → s = t := by
      intro s hsm t htm heq
      obtain ⟨hs1, hs2, hs3⟩ := hprop s hsm
      obtain ⟨ht1, ht2, ht3⟩ := hprop t htm
      rw [hpid s hsm, hpid t htm, Int.natCast_inj] at heq
      apply String.ext
      cases hcs : s.data with
      | nil => exact absurd hcs hs2
      | cons c cs =>
        cases hct : t.data with
        | nil => exact absurd hct ht2
        | cons d ds =>
          rw [hcs, hct] at heq
          rw [hcs] at hs1 hs3
          rw [hct] at ht1 ht3
          exact digitsVal_inj c cs d ds hs1 ht1 (by simpa using hs3) (by simpa using ht3) heq
    unfold snapshotProcs
    rw [List.pairwise_map]
    refine List.Pairwise.imp_of_mem ?_ hnod
    intro a b ham hbm hne hpe
    apply hne
    apply hinj a ham b hbm
    rw [getProcessInfo_pid, getProcessInfo_pid] at hpe
    exact hpe

/-- C9 witness: the invariants hold for a concrete listing with entries 12,
5 and a non-numeric tty entry. -/
theorem claim9_pid_invariants_witness :
    (∀ q ∈ snapshotProcs viewW entriesW, 0 < q.pid)
    ∧ (snapshotProcs viewW entriesW).Pairwise (fun a b => ¬ a.pid = b.pid) :=
  claim9_pid_invariants viewW entriesW (by decide) (by decide)

end SysMon
